import Mathlib

set_option maxHeartbeats 1000000

/-!
Shallow embedding of `src/open-ports-and-programs.py` and proofs about it.

External collaborators (psutil, socket, re, time) are modelled as an
environment of pure functions; the OutputManager singleton becomes explicit
state; `print` calls become an event list; Python exceptions become `Except`.
-/

/-- Python runtime errors that the embedded code can raise. -/
inductive PyErr where
  | typeError : PyErr
  | unboundLocal : PyErr
  deriving DecidableEq

/-- A remote address as psutil reports it: `raddr.ip` and `raddr.port`. -/
structure Addr where
  ip : String
  port : Nat
  deriving DecidableEq

/-- One psutil connection record: `laddr.port`, `pid`, `status`, `raddr`.
The pid is absent (`None`) when the owning process is unknown/unowned. -/
structure Conn where
  laddrPort : Nat
  pid : Option Int
  status : String
  raddr : Option Addr
  deriving DecidableEq

/-- The `(pid, program, foreign_address)` tuple stored in the two mappings;
the pid slot holds whatever `connection.pid` held, possibly `None`. -/
structure Entry where
  pid : Option Int
  program : Option String
  faddr : Option Addr
  deriving DecidableEq

/-- The external collaborators the script calls into:
`get_program_by_pid` (psutil), `str(connection)`, `socket.getservbyport`,
`socket.getfqdn`, and `re.compile` (error message or a compiled matcher).
`resolve` takes the possibly-absent pid: `psutil.Process(None)` targets the
current process, so even an unowned connection usually resolves to a name. -/
structure Env where
  resolve : Option Int → Option String
  reprConn : Conn → String
  servName : Nat → Option String
  fqdn : String → String
  compile : String → Except String (String → Bool)

/-- The OutputManager singleton's mutable class attributes. -/
structure OMState where
  bare : Bool
  maxProgramLen : Nat
  maxLineLen : Nat
  headerDisplayed : Bool
  deriving DecidableEq

/-- Initial OutputManager state: `_bare = False`, `_max_program_len = 30`,
`_max_line_len = 0`, `_header_displayed = False`. -/
def initOM : OMState :=
  { bare := false, maxProgramLen := 30, maxLineLen := 0, headerDisplayed := false }

/-- One printed artifact, tagged by the `print` statement that emitted it. -/
inductive Ev where
  | msg : String → Ev
  | blank : Nat → Ev
  | stateLine : String → Ev
  | headerLine : String → Ev
  | sepLine : String → Ev
  | entry : String → Ev
  deriving DecidableEq

/-- Python dict insert keyed by port: overwriting keeps the key's position,
a fresh key is appended at the end (insertion order semantics). -/
def dinsert (k : Nat) (v : Entry) (m : List (Nat × Entry)) : List (Nat × Entry) :=
  if m.any (fun x => decide (x.1 = k)) then
    m.map (fun x => if x.1 = k then (k, v) else x)
  else m ++ [(k, v)]

/-- Key membership in a mapping. -/
def hasKey (m : List (Nat × Entry)) (k : Nat) : Bool :=
  m.any (fun x => decide (x.1 = k))

/-- Python `'{:<w}'`: left-justify (pad right with spaces, never truncate). -/
def pL (s : String) (w : Nat) : String :=
  s ++ String.mk (List.replicate (w - s.length) ' ')

/-- Python `'{:>w}'`: right-justify (pad left with spaces, never truncate). -/
def pR (s : String) (w : Nat) : String :=
  String.mk (List.replicate (w - s.length) ' ') ++ s

/-- Python `str.center(w, c)`, including CPython's `marg & width & 1` quirk. -/
def pycenter (s : String) (w : Nat) (c : Char) : String :=
  if w ≤ s.length then s
  else
    let marg := w - s.length
    let left := marg / 2 + (marg &&& w &&& 1)
    String.mk (List.replicate left c) ++ s ++ String.mk (List.replicate (marg - left) c)

/-- `OutputManager._formatter` = `'{:<6} {:<maxProgramLen} {:<6}'`
applied to three values. -/
def formatterLine (om : OMState) (a b c : String) : String :=
  pL a 6 ++ " " ++ pL b om.maxProgramLen ++ " " ++ pL c 6

/-- `OutputManager._header`. -/
def headerStr (om : OMState) : String :=
  formatterLine om "Port:" "Program" "PID" ++ " " ++ pR "Svc Name / Foreign Addr" 20

/-- `OutputManager._separator`. -/
def separatorStr (om : OMState) : String :=
  String.mk (List.replicate om.maxLineLen '-')

/-- The pid column text: decimal digits for a present pid.  (CPython's
`format` would raise `TypeError` on an absent pid with a width spec; no
claim below renders an absent pid — for the one pipeline that retains one,
the PID sort raises first — so the rendering layer is kept total with
`str(None)` in that unreached case.) -/
def pidStr : Option Int → String
  | some n => toString n
  | none => "None"

/-- `OutputManager.output`.  Returns the formatted line together with the list
of ports for which a service-name lookup (`socket.getservbyport`) was
attempted while producing it. -/
def outputLine (env : Env) (om : OMState) (port : Nat) (program : Option String)
    (pid : Option Int) (foreign_address : Option Addr) (dns : Bool) : String × List Nat :=
  let programS : String := match program with
    | some s => if s = "" then "<unknown>" else s
    | none => "<unknown>"
  let fas0 : String := match foreign_address with
    | some a => a.ip ++ ":" ++ toString a.port
    | none => ""
  let fas : String := match foreign_address with
    | some a => if dns then fas0 ++ " (" ++ env.fqdn a.ip ++ ")" else fas0
    | none => fas0
  let service_name : String := match env.servName port with
    | some s => s
    | none => ""
  let base := formatterLine om (toString port) programS (pidStr pid)
  let line :=
    if om.bare then base
    else if service_name ≠ "" ∧ fas ≠ "" then
      base ++ pL ("SVC: " ++ service_name) 10 ++ " " ++ pR fas 40
    else if service_name ≠ "" ∧ fas = "" then
      base ++ pL ("SVC: " ++ service_name) 20
    else base ++ pR fas 40
  (line, [port])

/-- The line produced by `OutputManager.output`. -/
def outputStr (env : Env) (om : OMState) (port : Nat) (program : Option String)
    (pid : Option Int) (foreign_address : Option Addr) (dns : Bool) : String :=
  (outputLine env om port program pid foreign_address dns).1

/-- `OutputManager.calculate_max_line_len` (always called with `dns=False`). -/
def calculate_max_line_len (env : Env) (om : OMState)
    (connections : List (Nat × Entry)) : OMState :=
  let m := connections.foldl
    (fun m x => max m (outputStr env om x.1 x.2.program x.2.pid x.2.faddr false).length) 0
  { om with maxLineLen := m }

/-- `OutputManager.print_header`: emits a centred state line, optionally the
column header and the separator; bare mode emits nothing. -/
def print_header (om : OMState) (timeStr : String) (state : String)
    (bState bHeader bSeparator : Bool) : List Ev :=
  let centered := pycenter (state ++ " (" ++ timeStr ++ ")") om.maxLineLen '-'
  if om.bare then []
  else
    (if bState then [Ev.stateLine centered] else [])
      ++ (if bHeader then [Ev.headerLine (headerStr om)] else [])
      ++ (if bSeparator then [Ev.sepLine (separatorStr om)] else [])

/-- The tail of `print_section` after the header-flag bookkeeping: the
`print` calls for blank lines, header block, entry lines, trailing blanks. -/
def sectionEmit (env : Env) (om : OMState) (timeStr : String) (state : String)
    (connections : List (Nat × Entry)) (lines_before lines_after : Nat)
    (bState bHeader bSeparator dns : Bool) : OMState × List Ev :=
  (om,
    (if lines_before = 0 then [] else [Ev.blank lines_before])
      ++ (if om.bare then [] else print_header om timeStr state bState bHeader bSeparator)
      ++ connections.map
          (fun x => Ev.entry (outputStr env om x.1 x.2.program x.2.pid x.2.faddr dns))
      ++ (if lines_after = 0 then [] else [Ev.blank lines_after]))

/-- `OutputManager.print_section` with `_max_line_len` already recomputed:
empty sections print nothing; on the first non-empty section the header flag
flips and `lines_before`, `bHeader`, `bSeparator` are overridden to
`0`, `True`, `True`. -/
def print_section_core (env : Env) (om : OMState) (timeStr : String) (state : String)
    (connections : List (Nat × Entry)) (lines_before lines_after : Nat)
    (bState bHeader bSeparator dns : Bool) : OMState × List Ev :=
  if connections = [] then (om, [])
  else if om.headerDisplayed = false then
    sectionEmit env { om with headerDisplayed := true } timeStr state connections
      0 lines_after bState true true dns
  else
    sectionEmit env om timeStr state connections
      lines_before lines_after bState bHeader bSeparator dns

/-- `OutputManager.print_section`. -/
def print_section (env : Env) (om : OMState) (timeStr : String) (state : String)
    (connections : List (Nat × Entry)) (lines_before lines_after : Nat)
    (bState bHeader bSeparator dns : Bool) : OMState × List Ev :=
  print_section_core env (calculate_max_line_len env om connections) timeStr state
    connections lines_before lines_after bState bHeader bSeparator dns

/-- `OutputManager.set_max_program_len`, called with the (optional) program
name.  A `None` argument reaches `None > self._max_program_len`, which raises
`TypeError` in Python 3. -/
def set_max_program_len (cur : Nat) (x : Option String) : Except PyErr Nat :=
  match x with
  | some s => Except.ok (if cur < s.length then s.length else cur)
  | none => Except.error PyErr.typeError

/-- The entry built by `process_connection` for a connection. -/
def entryOf (env : Env) (c : Conn) : Entry :=
  { pid := c.pid, program := env.resolve c.pid, faddr := c.raddr }

/-- `process_connection`: route one connection into the LISTEN bucket iff its
status is exactly `'LISTEN'`, otherwise into the non-listening bucket.
(The `sort_by` and `foreign_address` parameters of the source are unused
there and omitted.) -/
def process_connection (env : Env) (c : Conn)
    (listening_mapping non_listening_mapping : List (Nat × Entry)) :
    List (Nat × Entry) × List (Nat × Entry) :=
  if c.status = "LISTEN" then
    (dinsert c.laddrPort (entryOf env c) listening_mapping, non_listening_mapping)
  else
    (listening_mapping, dinsert c.laddrPort (entryOf env c) non_listening_mapping)

/-- The state of the local variable `pattern` after the try/except at the top
of `get_port_program_mapping`: on `re.error` the variable is never assigned. -/
inductive PatternVar where
  | unbound : PatternVar
  | bound : Option (String → Bool) → PatternVar

/-- Lines 196-199: compile the regex inside try/except; a compile error is
printed and leaves `pattern` unbound. -/
def compilePattern (env : Env) : Option String → PatternVar × List String
  | none => (PatternVar.bound none, [])
  | some r =>
    if r = "" then (PatternVar.bound none, [])
    else match env.compile r with
      | Except.ok pat => (PatternVar.bound (some pat), [])
      | Except.error e => (PatternVar.unbound, ["Error: " ++ e])

/-- Line 202: `if listening_only and connection.status != 'LISTEN': continue`.
`true` means the connection survives the listening-only filter. -/
def survivesListening (listening_only : Bool) (c : Conn) : Bool :=
  !(listening_only && !(decide (c.status = "LISTEN")))

/-- Line 204: the regex filter.  Referencing an unbound `pattern` raises
`UnboundLocalError`; `pattern.search(None)` (program name unresolved) raises
`TypeError`. `ok true` means the connection is kept. -/
def regexKeep (env : Env) (pv : PatternVar) (c : Conn) : Except PyErr Bool :=
  match pv with
  | PatternVar.unbound => Except.error PyErr.unboundLocal
  | PatternVar.bound none => Except.ok true
  | PatternVar.bound (some pat) =>
    if pat (env.reprConn c) then Except.ok true
    else
      match env.resolve c.pid with
      | none => Except.error PyErr.typeError
      | some s => Except.ok (pat s)

/-- The mutable state threaded through the classification loop: the two
mappings plus the OutputManager's `_max_program_len`. -/
structure LoopSt where
  listening : List (Nat × Entry)
  nonListening : List (Nat × Entry)
  maxLen : Nat
  deriving DecidableEq

/-- One iteration of the `for connection in all_connections` loop
(lines 201-207). -/
def stepConn (env : Env) (listening_only : Bool) (pv : PatternVar)
    (st : LoopSt) (c : Conn) : Except PyErr LoopSt :=
  if survivesListening listening_only c = false then Except.ok st
  else
    match regexKeep env pv c with
    | Except.error e => Except.error e
    | Except.ok false => Except.ok st
    | Except.ok true =>
      let maps := process_connection env c st.listening st.nonListening
      match set_max_program_len st.maxLen (env.resolve c.pid) with
      | Except.error e => Except.error e
      | Except.ok w => Except.ok { listening := maps.1, nonListening := maps.2, maxLen := w }

/-- The whole classification loop. -/
def foldConns (env : Env) (listening_only : Bool) (pv : PatternVar) :
    LoopSt → List Conn → Except PyErr LoopSt
  | st, [] => Except.ok st
  | st, c :: cs =>
    match stepConn env listening_only pv st c with
    | Except.error e => Except.error e
    | Except.ok st₁ => foldConns env listening_only pv st₁ cs

/-- Stable insertion into a list sorted by the boolean comparison `le`
(the element being inserted goes before equal elements that were observed
later, matching Python's stable `sorted`). -/
def ordInsertB (le : α → α → Bool) (a : α) : List α → List α
  | [] => [a]
  | b :: l => if le a b then a :: b :: l else b :: ordInsertB le a l

/-- Stable insertion sort: the model of Python's `sorted` with a key. -/
def insSortB (le : α → α → Bool) : List α → List α
  | [] => []
  | a :: l => ordInsertB le a (insSortB le l)

/-- Lexicographic comparison of char lists by code point: Python's `str <=`. -/
def listLexLe : List Char → List Char → Bool
  | [], _ => true
  | _ :: _, [] => false
  | a :: as, b :: bs => if a < b then true else if b < a then false else listLexLe as bs

/-- Python string `<=`. -/
def strLeB (a b : String) : Bool := listLexLe a.toList b.toList

/-- Python `int(...)` applied to the stored pid: the identity on an int,
a `TypeError` on `None`. -/
def intPid : Option Int → Except PyErr Int
  | some n => Except.ok n
  | none => Except.error PyErr.typeError

/-- The key-computation pass of `sorted(..., key=lambda x: int(x[1][0]))`:
CPython evaluates the key of each element in list order before comparing,
so it raises at the first entry whose pid is `None`. -/
def pidKeyPass : List (Nat × Entry) → Except PyErr Unit
  | [] => Except.ok ()
  | x :: xs =>
    match intPid x.2.pid with
    | Except.error e => Except.error e
    | Except.ok _ => pidKeyPass xs

/-- Sort key `int(x[1][0])` (the pid) on entries whose key pass succeeded;
`sortMapping` surfaces the `TypeError` before any comparison, so the default
for an absent pid is never consulted where this key is used. -/
def pidK (x : Nat × Entry) : Int :=
  match x.2.pid with
  | some n => n
  | none => 0

/-- Sort key `lambda x: int(x[0])` (the local port). -/
def portK (x : Nat × Entry) : Nat := x.1

/-- Sort key `lambda x: x[1][1] if x[1][1] else ''` (program name, falsy
values collapse to the empty string). -/
def progK (x : Nat × Entry) : String :=
  match x.2.program with
  | some s => s
  | none => ""

/-- Comparison on entries by pid. -/
def pidLe (x y : Nat × Entry) : Bool := decide (pidK x ≤ pidK y)

/-- Comparison on entries by local port. -/
def portLe (x y : Nat × Entry) : Bool := decide (portK x ≤ portK y)

/-- Comparison on entries by program name. -/
def progLe (x y : Nat × Entry) : Bool := strLeB (progK x) (progK y)

/-- Lines 209-220: `sorted(mapping.items(), key=...)` with the four branches
of the if/elif chain (`else` falls back to port order).  The PID branch first
runs the key pass, raising `TypeError` (`int(None)`) when any entry's pid is
absent; the other branches cannot raise. -/
def sortMapping (sort_by : String) (m : List (Nat × Entry)) :
    Except PyErr (List (Nat × Entry)) :=
  if sort_by = "PID" then
    match pidKeyPass m with
    | Except.error e => Except.error e
    | Except.ok _ => Except.ok (insSortB pidLe m)
  else if sort_by = "Port" then Except.ok (insSortB portLe m)
  else if sort_by = "Program" then Except.ok (insSortB progLe m)
  else Except.ok (insSortB portLe m)

/-- `get_port_program_mapping`: the full tick pipeline.  `conns` stands for
`psutil.net_connections()`, `timeStr` for the formatted current time, `om0`
for the OutputManager singleton state.  Returns the printed events together
with either the raised exception or the updated OutputManager state and the
two (unsorted) mappings the function returns. -/
def get_port_program_mapping (env : Env) (timeStr : String) (conns : List Conn)
    (om0 : OMState) (sort_by : String) (bare : Bool) (listening_only : Bool)
    (dns : Bool) (regex : Option String) :
    List Ev × Except PyErr (OMState × List (Nat × Entry) × List (Nat × Entry)) :=
  let om := { om0 with bare := bare }
  let pc := compilePattern env regex
  let msgs := pc.2.map Ev.msg
  match foldConns env listening_only pc.1
      { listening := [], nonListening := [], maxLen := om.maxProgramLen } conns with
  | Except.error e => (msgs, Except.error e)
  | Except.ok st =>
    let om := { om with maxProgramLen := st.maxLen }
    match sortMapping sort_by st.listening with
    | Except.error e => (msgs, Except.error e)
    | Except.ok sorted_listening =>
      match sortMapping sort_by st.nonListening with
      | Except.error e => (msgs, Except.error e)
      | Except.ok sorted_non_listening =>
        let r1 := print_section env om timeStr "LISTENING" sorted_listening
          1 0 true false false dns
        if listening_only then
          (msgs ++ r1.2, Except.ok (r1.1, st.listening, st.nonListening))
        else
          let r2 := print_section env r1.1 timeStr "NON-LISTENING" sorted_non_listening
            1 0 true false false dns
          (msgs ++ r1.2 ++ r2.2, Except.ok (r2.1, st.listening, st.nonListening))

/-- The `__main__` sort-key selection: `--sort` defaults to `'Program'`,
then `-i`/`-p` override it with `'PID'`/`'Port'`. -/
def mainSortKey (pidFlag portFlag : Bool) (sortArg : Option String) : String :=
  let sort := match sortArg with
    | some s => s
    | none => "Program"
  if pidFlag then "PID" else if portFlag then "Port" else sort

/-- A sequence of `set_max_program_len` width reports applied in order. -/
def runReports : Nat → List (Option String) → Except PyErr Nat
  | w, [] => Except.ok w
  | w, r :: rs =>
    match set_max_program_len w r with
    | Except.error e => Except.error e
    | Except.ok w₁ => runReports w₁ rs

/-- Does the char list `ys` occur as a prefix of `xs`? -/
def startsList : List Char → List Char → Bool
  | _, [] => true
  | [], _ :: _ => false
  | a :: as, b :: bs => decide (a = b) && startsList as bs

/-- Does `ys` occur as a contiguous sublist of `xs`? -/
def hasSubList : List Char → List Char → Bool
  | [], ys => ys.isEmpty
  | x :: xs, ys => startsList (x :: xs) ys || hasSubList xs ys

/-- Substring test on strings. -/
def strContains (hay needle : String) : Bool := hasSubList hay.toList needle.toList

/-! Generic lemmas about the stable insertion sort. -/

theorem mem_ordInsertB (le : α → α → Bool) (a x : α) (l : List α) :
    x ∈ ordInsertB le a l ↔ x = a ∨ x ∈ l := by
  induction l with
  | nil => simp [ordInsertB]
  | cons b l ih =>
    by_cases h : le a b = true
    · simp [ordInsertB, h, List.mem_cons]
    · simp [ordInsertB, h, List.mem_cons, ih]
      tauto

theorem pairwise_ordInsertB (le : α → α → Bool)
    (htot : ∀ x y, le x y = true ∨ le y x = true)
    (htrans : ∀ x y z, le x y = true → le y z = true → le x z = true)
    (a : α) (l : List α) (h : l.Pairwise (fun x y => le x y = true)) :
    (ordInsertB le a l).Pairwise (fun x y => le x y = true) := by
  induction l with
  | nil => simp [ordInsertB]
  | cons b l ih =>
    rw [List.pairwise_cons] at h
    obtain ⟨hb, hl⟩ := h
    by_cases hab : le a b = true
    · have : ordInsertB le a (b :: l) = a :: b :: l := by simp [ordInsertB, hab]
      rw [this]
      refine List.Pairwise.cons ?_ (List.Pairwise.cons hb hl)
      intro y hy
      rcases List.mem_cons.mp hy with rfl | hy
      · exact hab
      · exact htrans a b y hab (hb y hy)
    · have : ordInsertB le a (b :: l) = b :: ordInsertB le a l := by simp [ordInsertB, hab]
      rw [this]
      refine List.Pairwise.cons ?_ (ih hl)
      intro y hy
      rcases (mem_ordInsertB le a y l).mp hy with heq | hy
      · rw [heq]
        exact (htot a b).resolve_left hab
      · exact hb y hy

theorem pairwise_insSortB (le : α → α → Bool)
    (htot : ∀ x y, le x y = true ∨ le y x = true)
    (htrans : ∀ x y z, le x y = true → le y z = true → le x z = true) :
    ∀ l : List α, (insSortB le l).Pairwise (fun x y => le x y = true) := by
  intro l
  induction l with
  | nil => simp [insSortB]
  | cons a l ih => exact pairwise_ordInsertB le htot htrans a _ ih

theorem perm_ordInsertB (le : α → α → Bool) (a : α) (l : List α) :
    (ordInsertB le a l).Perm (a :: l) := by
  induction l with
  | nil => simp [ordInsertB]
  | cons b l ih =>
    by_cases h : le a b = true
    · simp [ordInsertB, h]
    · have : ordInsertB le a (b :: l) = b :: ordInsertB le a l := by simp [ordInsertB, h]
      rw [this]
      exact ((ih.cons b).trans (List.Perm.swap a b l))

theorem perm_insSortB (le : α → α → Bool) : ∀ l : List α, (insSortB le l).Perm l := by
  intro l
  induction l with
  | nil => simp [insSortB]
  | cons a l ih => exact (perm_ordInsertB le a (insSortB le l)).trans (ih.cons a)

theorem filter_ordInsertB {β : Type} (kf : α → β) (leB : β → β → Bool) [DecidableEq β]
    (hrefl : ∀ b, leB b b = true) (a : α) (l : List α) (k : β) :
    (ordInsertB (fun x y => leB (kf x) (kf y)) a l).filter (fun x => decide (kf x = k)) =
      if kf a = k then a :: l.filter (fun x => decide (kf x = k))
      else l.filter (fun x => decide (kf x = k)) := by
  induction l with
  | nil => by_cases h : kf a = k <;> simp [ordInsertB, h]
  | cons b l ih =>
    by_cases hle : leB (kf a) (kf b) = true
    · have step : ordInsertB (fun x y => leB (kf x) (kf y)) a (b :: l) = a :: b :: l := by
        simp [ordInsertB, hle]
      rw [step]
      by_cases h : kf a = k <;> simp [List.filter_cons, h]
    · have step : ordInsertB (fun x y => leB (kf x) (kf y)) a (b :: l) =
          b :: ordInsertB (fun x y => leB (kf x) (kf y)) a l := by
        simp [ordInsertB, hle]
      by_cases h : kf a = k
      · have hbk : ¬ (kf b = k) := by
          intro hbk
          exact hle (by rw [h, hbk]; exact hrefl k)
        simp [step, List.filter_cons, h, hbk, ih]
      · simp [step, List.filter_cons, h, ih]

theorem filter_insSortB {β : Type} (kf : α → β) (leB : β → β → Bool) [DecidableEq β]
    (hrefl : ∀ b, leB b b = true) (k : β) :
    ∀ l : List α,
      (insSortB (fun x y => leB (kf x) (kf y)) l).filter (fun x => decide (kf x = k)) =
        l.filter (fun x => decide (kf x = k)) := by
  intro l
  induction l with
  | nil => rfl
  | cons a l ih =>
    have : insSortB (fun x y => leB (kf x) (kf y)) (a :: l) =
        ordInsertB (fun x y => leB (kf x) (kf y)) a (insSortB (fun x y => leB (kf x) (kf y)) l) := rfl
    rw [this, filter_ordInsertB kf leB hrefl a _ k, ih]
    by_cases h : kf a = k <;> simp [List.filter_cons, h]

/-! Facts about the embedded Python string comparison. -/

theorem listLexLe_refl : ∀ x : List Char, listLexLe x x = true := by
  intro x
  induction x with
  | nil => rfl
  | cons a as ih => simp [listLexLe, lt_irrefl, ih]

theorem listLexLe_total : ∀ x y : List Char, listLexLe x y = true ∨ listLexLe y x = true := by
  intro x
  induction x with
  | nil => intro y; left; rfl
  | cons a as ih =>
    intro y
    cases y with
    | nil => right; rfl
    | cons b bs =>
      by_cases hab : a < b
      · left; simp [listLexLe, hab]
      · by_cases hba : b < a
        · right; simp [listLexLe, hba]
        · rcases ih bs with h | h
          · left; simp [listLexLe, hab, hba, h]
          · right; simp [listLexLe, hab, hba, h]

theorem listLexLe_trans :
    ∀ x y z : List Char, listLexLe x y = true → listLexLe y z = true → listLexLe x z = true := by
  intro x
  induction x with
  | nil => intro y z _ _; rfl
  | cons a as ih =>
    intro y z hxy hyz
    cases y with
    | nil => simp [listLexLe] at hxy
    | cons b bs =>
      cases z with
      | nil => simp [listLexLe] at hyz
      | cons c cs =>
        by_cases hab : a < b
        · by_cases hbc : b < c
          · simp [listLexLe, lt_trans hab hbc]
          · by_cases hcb : c < b
            · simp [listLexLe, hbc, hcb] at hyz
            · have hbceq : b = c := le_antisymm (not_lt.mp hcb) (not_lt.mp hbc)
              simp [listLexLe, hbceq ▸ hab]
        · by_cases hba : b < a
          · simp [listLexLe, hab, hba] at hxy
          · have habeq : a = b := le_antisymm (not_lt.mp hba) (not_lt.mp hab)
            rw [listLexLe, if_neg hab, if_neg hba] at hxy
            subst habeq
            by_cases hbc : a < c
            · simp [listLexLe, hbc]
            · by_cases hcb : c < a
              · simp [listLexLe, hbc, hcb] at hyz
              · rw [listLexLe, if_neg hbc, if_neg hcb] at hyz ⊢
                exact ih bs cs hxy hyz

theorem strLeB_refl (s : String) : strLeB s s = true := listLexLe_refl s.toList

theorem strLeB_total (s t : String) : strLeB s t = true ∨ strLeB t s = true :=
  listLexLe_total s.toList t.toList

theorem strLeB_trans (s t u : String) :
    strLeB s t = true → strLeB t u = true → strLeB s u = true :=
  listLexLe_trans s.toList t.toList u.toList

/-- The empty string is least in the embedded Python string order. -/
theorem strLeB_empty (s : String) : strLeB "" s = true := rfl

/-- Whatever compares at or below the empty string is the empty string. -/
theorem strLeB_le_empty (s : String) (h : strLeB s "" = true) : s = "" := by
  cases hs : s.toList with
  | nil =>
    cases s with
    | mk data =>
      simp [String.toList] at hs
      simp [hs]
  | cons a as =>
    unfold strLeB at h
    rw [hs] at h
    simp [listLexLe] at h

/-! Lemmas about the port-keyed mappings and the classification loop. -/

theorem hasKey_dinsert (m : List (Nat × Entry)) (k : Nat) (v : Entry) (p : Nat) :
    hasKey (dinsert k v m) p = true ↔ (p = k ∨ hasKey m p = true) := by
  unfold dinsert
  by_cases h : m.any (fun x => decide (x.1 = k)) = true
  · rw [if_pos h]
    have hmap : ∀ m' : List (Nat × Entry),
        hasKey (m'.map (fun x => if x.1 = k then (k, v) else x)) p = hasKey m' p := by
      intro m'
      induction m' with
      | nil => rfl
      | cons x xs ih =>
        unfold hasKey at ih ⊢
        by_cases hx : x.1 = k
        · simp [hx] at ih ⊢
          rw [ih]
        · simp [hx] at ih ⊢
          rw [ih]
    rw [hmap]
    constructor
    · intro hp
      exact Or.inr hp
    · rintro (heq | hp)
      · rw [heq]
        exact h
      · exact hp
  · rw [if_neg h]
    unfold hasKey
    rw [List.any_append]
    simp only [List.any_cons, List.any_nil, Bool.or_false, Bool.or_eq_true, decide_eq_true_eq]
    constructor
    · rintro (hp | hk)
      · exact Or.inr hp
      · exact Or.inl hk.symm
    · rintro (hk | hp)
      · exact Or.inr hk.symm
      · exact Or.inl hp

/-- A connection is routed by the Classifier when it survives the
listening-only filter and is kept by the regex filter. -/
def routedConn (env : Env) (listening_only : Bool) (pv : PatternVar) (c : Conn) : Prop :=
  survivesListening listening_only c = true ∧ regexKeep env pv c = Except.ok true

theorem process_connection_listen (env : Env) (c : Conn) (L N : List (Nat × Entry))
    (h : c.status = "LISTEN") :
    process_connection env c L N = (dinsert c.laddrPort (entryOf env c) L, N) := by
  unfold process_connection
  rw [if_pos h]

theorem process_connection_other (env : Env) (c : Conn) (L N : List (Nat × Entry))
    (h : ¬ c.status = "LISTEN") :
    process_connection env c L N = (L, dinsert c.laddrPort (entryOf env c) N) := by
  unfold process_connection
  rw [if_neg h]

/-- What a successful loop iteration did: either the connection was filtered
out and the state is untouched, or it was routed, its program name resolved
to some string, the mappings were updated by `process_connection` and the
width by `set_max_program_len`. -/
theorem stepConn_cases (env : Env) (lO : Bool) (pv : PatternVar) (st : LoopSt) (c : Conn)
    (st₁ : LoopSt) (h : stepConn env lO pv st c = Except.ok st₁) :
    (¬ routedConn env lO pv c ∧ st₁ = st) ∨
    (routedConn env lO pv c ∧ ∃ s, env.resolve c.pid = some s ∧
      st₁ = { listening := (process_connection env c st.listening st.nonListening).1,
              nonListening := (process_connection env c st.listening st.nonListening).2,
              maxLen := if st.maxLen < s.length then s.length else st.maxLen }) := by
  unfold stepConn at h
  by_cases hs : survivesListening lO c = false
  · rw [if_pos hs] at h
    left
    constructor
    · rintro ⟨h1, _⟩
      rw [h1] at hs
      exact Bool.noConfusion hs
    · exact (Except.ok.inj h).symm
  · rw [if_neg hs] at h
    have hs' : survivesListening lO c = true := by
      cases hv : survivesListening lO c
      · exact absurd hv hs
      · rfl
    cases hrk : regexKeep env pv c with
    | error e =>
      rw [hrk] at h
      exact Except.noConfusion h
    | ok b =>
      rw [hrk] at h
      cases b with
      | false =>
        left
        constructor
        · rintro ⟨_, h2⟩
          have := h2.symm.trans hrk
          simp at this
        · exact (Except.ok.inj h).symm
      | true =>
        cases hr : env.resolve c.pid with
        | none =>
          rw [hr] at h
          exact Except.noConfusion h
        | some s =>
          rw [hr] at h
          right
          refine ⟨⟨hs', hrk⟩, s, rfl, (Except.ok.inj h).symm⟩

theorem foldConns_ok_cons (env : Env) (lO : Bool) (pv : PatternVar)
    (st : LoopSt) (c : Conn) (cs : List Conn) (st' : LoopSt)
    (h : foldConns env lO pv st (c :: cs) = Except.ok st') :
    ∃ st₁, stepConn env lO pv st c = Except.ok st₁ ∧
      foldConns env lO pv st₁ cs = Except.ok st' := by
  unfold foldConns at h
  cases hst : stepConn env lO pv st c with
  | error e =>
    rw [hst] at h
    exact Except.noConfusion h
  | ok st₁ =>
    rw [hst] at h
    exact ⟨st₁, rfl, h⟩

theorem stepConn_hasKey (env : Env) (lO : Bool) (pv : PatternVar) (st : LoopSt)
    (c : Conn) (st₁ : LoopSt) (h : stepConn env lO pv st c = Except.ok st₁) (p : Nat) :
    (hasKey st₁.listening p = true ↔
      (hasKey st.listening p = true ∨
        (routedConn env lO pv c ∧ c.status = "LISTEN" ∧ c.laddrPort = p))) ∧
    (hasKey st₁.nonListening p = true ↔
      (hasKey st.nonListening p = true ∨
        (routedConn env lO pv c ∧ ¬ c.status = "LISTEN" ∧ c.laddrPort = p))) := by
  rcases stepConn_cases env lO pv st c st₁ h with ⟨hnr, h1⟩ | ⟨hr, s, hs, h1⟩
  · subst h1
    constructor
    · constructor
      · exact Or.inl
      · rintro (hp | ⟨hc, _⟩)
        · exact hp
        · exact absurd hc hnr
    · constructor
      · exact Or.inl
      · rintro (hp | ⟨hc, _⟩)
        · exact hp
        · exact absurd hc hnr
  · subst h1
    by_cases hls : c.status = "LISTEN"
    · rw [process_connection_listen env c st.listening st.nonListening hls]
      constructor
      · show hasKey (dinsert c.laddrPort (entryOf env c) st.listening) p = true ↔ _
        rw [hasKey_dinsert]
        constructor
        · rintro (heq | hp)
          · exact Or.inr ⟨hr, hls, heq.symm⟩
          · exact Or.inl hp
        · rintro (hp | ⟨_, _, hport⟩)
          · exact Or.inr hp
          · exact Or.inl hport.symm
      · show hasKey st.nonListening p = true ↔ _
        constructor
        · exact Or.inl
        · rintro (hp | ⟨_, habs, _⟩)
          · exact hp
          · exact absurd hls habs
    · rw [process_connection_other env c st.listening st.nonListening hls]
      constructor
      · show hasKey st.listening p = true ↔ _
        constructor
        · exact Or.inl
        · rintro (hp | ⟨_, hc, _⟩)
          · exact hp
          · exact absurd hc hls
      · show hasKey (dinsert c.laddrPort (entryOf env c) st.nonListening) p = true ↔ _
        rw [hasKey_dinsert]
        constructor
        · rintro (heq | hp)
          · exact Or.inr ⟨hr, hls, heq.symm⟩
          · exact Or.inl hp
        · rintro (hp | ⟨_, _, hport⟩)
          · exact Or.inr hp
          · exact Or.inl hport.symm

theorem foldConns_hasKey (env : Env) (lO : Bool) (pv : PatternVar) :
    ∀ (conns : List Conn) (st st' : LoopSt),
      foldConns env lO pv st conns = Except.ok st' → ∀ p : Nat,
    (hasKey st'.listening p = true ↔ (hasKey st.listening p = true ∨
       ∃ c ∈ conns, routedConn env lO pv c ∧ c.status = "LISTEN" ∧ c.laddrPort = p)) ∧
    (hasKey st'.nonListening p = true ↔ (hasKey st.nonListening p = true ∨
       ∃ c ∈ conns, routedConn env lO pv c ∧ ¬ c.status = "LISTEN" ∧ c.laddrPort = p)) := by
  intro conns
  induction conns with
  | nil =>
    intro st st' h p
    have heq : st = st' := Except.ok.inj h
    subst heq
    simp
  | cons c cs ih =>
    intro st st' h p
    obtain ⟨st₁, hst, hrest⟩ := foldConns_ok_cons env lO pv st c cs st' h
    obtain ⟨hL1, hN1⟩ := stepConn_hasKey env lO pv st c st₁ hst p
    obtain ⟨hL2, hN2⟩ := ih st₁ st' hrest p
    constructor
    · rw [hL2, hL1, List.exists_mem_cons_iff, or_assoc]
    · rw [hN2, hN1, List.exists_mem_cons_iff, or_assoc]

theorem survivesListening_lonly (c : Conn) (h : survivesListening true c = true) :
    c.status = "LISTEN" := by
  unfold survivesListening at h
  simp at h
  exact h

theorem stepConn_lonly_nonListening (env : Env) (pv : PatternVar) (st : LoopSt)
    (c : Conn) (st₁ : LoopSt) (h : stepConn env true pv st c = Except.ok st₁) :
    st₁.nonListening = st.nonListening := by
  rcases stepConn_cases env true pv st c st₁ h with ⟨_, h1⟩ | ⟨hr, s, hs, h1⟩
  · rw [h1]
  · have hls : c.status = "LISTEN" := survivesListening_lonly c hr.1
    rw [h1]
    show (process_connection env c st.listening st.nonListening).2 = st.nonListening
    rw [process_connection_listen env c st.listening st.nonListening hls]

theorem foldConns_lonly_nonListening (env : Env) (pv : PatternVar) :
    ∀ (conns : List Conn) (st st' : LoopSt),
      foldConns env true pv st conns = Except.ok st' →
      st'.nonListening = st.nonListening := by
  intro conns
  induction conns with
  | nil =>
    intro st st' h
    have heq : st = st' := Except.ok.inj h
    rw [heq]
  | cons c cs ih =>
    intro st st' h
    obtain ⟨st₁, hst, hrest⟩ := foldConns_ok_cons env true pv st c cs st' h
    rw [ih st₁ st' hrest, stepConn_lonly_nonListening env pv st c st₁ hst]

/-! Keys of the mappings stay duplicate-free. -/

def keysOf (m : List (Nat × Entry)) : List Nat := m.map Prod.fst

theorem map_fst_overwrite (k : Nat) (v : Entry) :
    ∀ m : List (Nat × Entry),
      (m.map (fun x => if x.1 = k then (k, v) else x)).map Prod.fst = m.map Prod.fst := by
  intro m
  induction m with
  | nil => rfl
  | cons x xs ih =>
    simp only [List.map_cons, ih]
    by_cases hx : x.1 = k
    · simp [hx]
    · rw [if_neg hx]

theorem nodup_keys_dinsert (m : List (Nat × Entry)) (k : Nat) (v : Entry)
    (h : (keysOf m).Nodup) : (keysOf (dinsert k v m)).Nodup := by
  unfold dinsert
  by_cases hk : m.any (fun x => decide (x.1 = k)) = true
  · rw [if_pos hk]
    unfold keysOf at h ⊢
    rw [map_fst_overwrite k v m]
    exact h
  · rw [if_neg hk]
    unfold keysOf at h ⊢
    rw [List.map_append]
    rw [List.nodup_append]
    refine ⟨h, List.nodup_singleton k, ?_⟩
    intro a ha hb
    have hak : a = k := by
      simpa using hb
    apply hk
    rw [List.any_eq_true]
    obtain ⟨x, hx, hfst⟩ := List.mem_map.mp ha
    exact ⟨x, hx, decide_eq_true (by rw [hfst, hak])⟩

theorem stepConn_nodup (env : Env) (lO : Bool) (pv : PatternVar) (st : LoopSt)
    (c : Conn) (st₁ : LoopSt) (h : stepConn env lO pv st c = Except.ok st₁)
    (hL : (keysOf st.listening).Nodup) (hN : (keysOf st.nonListening).Nodup) :
    (keysOf st₁.listening).Nodup ∧ (keysOf st₁.nonListening).Nodup := by
  rcases stepConn_cases env lO pv st c st₁ h with ⟨_, h1⟩ | ⟨hr, s, hs, h1⟩
  · rw [h1]
    exact ⟨hL, hN⟩
  · subst h1
    by_cases hls : c.status = "LISTEN"
    · rw [process_connection_listen env c st.listening st.nonListening hls]
      exact ⟨nodup_keys_dinsert st.listening c.laddrPort (entryOf env c) hL, hN⟩
    · rw [process_connection_other env c st.listening st.nonListening hls]
      exact ⟨hL, nodup_keys_dinsert st.nonListening c.laddrPort (entryOf env c) hN⟩

theorem foldConns_nodup (env : Env) (lO : Bool) (pv : PatternVar) :
    ∀ (conns : List Conn) (st st' : LoopSt),
      foldConns env lO pv st conns = Except.ok st' →
      (keysOf st.listening).Nodup → (keysOf st.nonListening).Nodup →
      (keysOf st'.listening).Nodup ∧ (keysOf st'.nonListening).Nodup := by
  intro conns
  induction conns with
  | nil =>
    intro st st' h hL hN
    have heq : st = st' := Except.ok.inj h
    subst heq
    exact ⟨hL, hN⟩
  | cons c cs ih =>
    intro st st' h hL hN
    obtain ⟨st₁, hst, hrest⟩ := foldConns_ok_cons env lO pv st c cs st' h
    obtain ⟨hL1, hN1⟩ := stepConn_nodup env lO pv st c st₁ hst hL hN
    exact ih st₁ st' hrest hL1 hN1

/-! Width-state lemmas. -/

theorem set_max_program_len_mono (w : Nat) (x : Option String) (w' : Nat)
    (h : set_max_program_len w x = Except.ok w') : w ≤ w' := by
  cases x with
  | none => exact Except.noConfusion h
  | some s =>
    have heq : w' = if w < s.length then s.length else w := (Except.ok.inj h).symm
    rw [heq]
    by_cases hw : w < s.length
    · rw [if_pos hw]
      exact le_of_lt hw
    · rw [if_neg hw]

theorem runReports_mono : ∀ (rs : List (Option String)) (w w' : Nat),
    runReports w rs = Except.ok w' → w ≤ w' := by
  intro rs
  induction rs with
  | nil =>
    intro w w' h
    exact le_of_eq (Except.ok.inj h)
  | cons r rs ih =>
    intro w w' h
    unfold runReports at h
    cases hs : set_max_program_len w r with
    | error e =>
      rw [hs] at h
      exact Except.noConfusion h
    | ok w₁ =>
      rw [hs] at h
      exact le_trans (set_max_program_len_mono w r w₁ hs) (ih w₁ w' h)

theorem stepConn_maxLen_mono (env : Env) (lO : Bool) (pv : PatternVar) (st : LoopSt)
    (c : Conn) (st₁ : LoopSt) (h : stepConn env lO pv st c = Except.ok st₁) :
    st.maxLen ≤ st₁.maxLen := by
  rcases stepConn_cases env lO pv st c st₁ h with ⟨_, h1⟩ | ⟨_, s, _, h1⟩
  · rw [h1]
  · rw [h1]
    show st.maxLen ≤ (if st.maxLen < s.length then s.length else st.maxLen)
    by_cases hw : st.maxLen < s.length
    · rw [if_pos hw]
      exact le_of_lt hw
    · rw [if_neg hw]

theorem foldConns_maxLen_mono (env : Env) (lO : Bool) (pv : PatternVar) :
    ∀ (conns : List Conn) (st st' : LoopSt),
      foldConns env lO pv st conns = Except.ok st' → st.maxLen ≤ st'.maxLen := by
  intro conns
  induction conns with
  | nil =>
    intro st st' h
    exact le_of_eq (congrArg LoopSt.maxLen (Except.ok.inj h))
  | cons c cs ih =>
    intro st st' h
    obtain ⟨st₁, hst, hrest⟩ := foldConns_ok_cons env lO pv st c cs st' h
    exact le_trans (stepConn_maxLen_mono env lO pv st c st₁ hst) (ih st₁ st' hrest)

theorem print_section_maxProgramLen (env : Env) (om : OMState) (timeStr state : String)
    (connections : List (Nat × Entry)) (lb la : Nat) (bS bH bSep dns : Bool) :
    (print_section env om timeStr state connections lb la bS bH bSep dns).1.maxProgramLen =
      om.maxProgramLen := by
  unfold print_section print_section_core
  by_cases h : connections = []
  · rw [if_pos h]
    rfl
  · rw [if_neg h]
    by_cases hh : (calculate_max_line_len env om connections).headerDisplayed = false
    · rw [if_pos hh]
      rfl
    · rw [if_neg hh]
      rfl

/-! Claim C1: the classifier partition property. -/

/-- C1: For every raw connection list, after a successful classification pass
starting from empty mappings, a port is a key of the listening mapping iff
some routed (filter-surviving) connection in LISTEN state has that local
port; it is a key of the non-listening mapping iff some routed connection in
a non-LISTEN state has that port; and when the listening-only flag is set all
non-LISTEN connections are dropped, so the non-listening mapping stays empty.
Hence every routed connection lands in the bucket determined by its state and
in no other. -/
theorem classifier_partition (env : Env) (lO : Bool) (pv : PatternVar) (w : Nat)
    (conns : List Conn) (st' : LoopSt)
    (h : foldConns env lO pv { listening := [], nonListening := [], maxLen := w } conns =
      Except.ok st') :
    (∀ p : Nat, hasKey st'.listening p = true ↔
       ∃ c ∈ conns, routedConn env lO pv c ∧ c.status = "LISTEN" ∧ c.laddrPort = p) ∧
    (∀ p : Nat, hasKey st'.nonListening p = true ↔
       ∃ c ∈ conns, routedConn env lO pv c ∧ ¬ c.status = "LISTEN" ∧ c.laddrPort = p) ∧
    (lO = true → st'.nonListening = []) := by
  refine ⟨?_, ?_, ?_⟩
  · intro p
    rw [(foldConns_hasKey env lO pv conns _ st' h p).1]
    constructor
    · rintro (habs | hx)
      · exact Bool.noConfusion habs
      · exact hx
    · exact Or.inr
  · intro p
    rw [(foldConns_hasKey env lO pv conns _ st' h p).2]
    constructor
    · rintro (habs | hx)
      · exact Bool.noConfusion habs
      · exact hx
    · exact Or.inr
  · intro hlo
    subst hlo
    exact foldConns_lonly_nonListening env pv conns _ st' h

def envW1 : Env :=
  { resolve := fun _ => some "nginx", reprConn := fun _ => "sconn", servName := fun _ => none,
    fqdn := fun s => s, compile := fun _ => Except.error "e" }

def connsW1 : List Conn :=
  [{ laddrPort := 80, pid := some 100, status := "LISTEN", raddr := none },
   { laddrPort := 51000, pid := some 200, status := "ESTABLISHED",
     raddr := some { ip := "93.184.216.34", port := 80 } }]

def stW1 : LoopSt :=
  { listening := [(80, Entry.mk (some 100) (some "nginx") none)],
    nonListening := [(51000, Entry.mk (some 200) (some "nginx") (some (Addr.mk "93.184.216.34" 80)))],
    maxLen := 30 }

/-- Witness for C1 at a concrete connection list. -/
theorem classifier_partition_witness :
    foldConns envW1 false (PatternVar.bound none)
      { listening := [], nonListening := [], maxLen := 30 } connsW1 = Except.ok stW1 ∧
    (∀ p : Nat, hasKey stW1.listening p = true ↔
      ∃ c ∈ connsW1, routedConn envW1 false (PatternVar.bound none) c ∧
        c.status = "LISTEN" ∧ c.laddrPort = p) := by
  have h : foldConns envW1 false (PatternVar.bound none)
      { listening := [], nonListening := [], maxLen := 30 } connsW1 = Except.ok stW1 := rfl
  exact ⟨h, (classifier_partition envW1 false (PatternVar.bound none) 30 connsW1 stW1 h).1⟩

/-! Claim C2: malformed filter expression. -/

def envC2 : Env :=
  { resolve := fun _ => some "chrome", reprConn := fun _ => "sconn", servName := fun _ => none,
    fqdn := fun s => s,
    compile := fun _ => Except.error "missing ), unterminated subpattern at position 0" }

def connC2 : Conn := { laddrPort := 5000, pid := some 10, status := "ESTABLISHED", raddr := none }

/-- C2: a malformed regex is reported (the `Error:` message is printed), but
the tick then raises `UnboundLocalError` at the first connection because the
`except` branch never assigns `pattern`; the pipeline does not continue
unfiltered. -/
theorem malformed_regex_raises :
    get_port_program_mapping envC2 "t" [connC2] initOM "Port" false false false (some "(") =
      ([Ev.msg "Error: missing ), unterminated subpattern at position 0"],
        Except.error PyErr.unboundLocal) := rfl

/-! Claim C3: exited process (unresolvable program name). -/

def envC3 : Env :=
  { resolve := fun _ => none, reprConn := fun _ => "sconn", servName := fun _ => none,
    fqdn := fun s => s, compile := fun _ => Except.error "e" }

def envC3f : Env :=
  { resolve := fun _ => none, reprConn := fun _ => "sconn", servName := fun _ => none,
    fqdn := fun s => s, compile := fun _ => Except.ok (fun _ => false) }

def connC3 : Conn := { laddrPort := 80, pid := some 100, status := "LISTEN", raddr := none }

/-- C3: when the owning process has exited (name lookup returns `None`) the
tick raises `TypeError` instead of treating the name as unknown: without a
filter, `set_max_program_len(None)` evaluates `None > int`; with a filter
that fails on `str(connection)`, `pattern.search(None)` raises. -/
theorem exited_process_raises :
    get_port_program_mapping envC3 "t" [connC3] initOM "Port" false false false none =
      ([], Except.error PyErr.typeError) ∧
    get_port_program_mapping envC3f "t" [connC3] initOM "Port" false false false (some "curl") =
      ([], Except.error PyErr.typeError) := ⟨rfl, rfl⟩

/-! Claim C4: bare-mode rendering. -/

def envC4 : Env :=
  { resolve := fun _ => some "curl", reprConn := fun _ => "sconn",
    servName := fun _ => none, fqdn := fun s => s, compile := fun _ => Except.error "e" }

/-- C4: in bare mode the rendered line consists of the left-padded port,
program and pid only — the format string has three placeholders, so the
foreign-address argument is silently dropped — and the service-name lookup
is still attempted (the lookup log is non-empty). -/
theorem bare_output_drops_foreign_addr :
    (outputLine envC4 { initOM with bare := true } 51000 (some "curl") (some 200)
        (some { ip := "93.184.216.34", port := 80 }) false).1 =
      pL "51000" 6 ++ " " ++ pL "curl" 30 ++ " " ++ pL "200" 6 ∧
    strContains
      (outputLine envC4 { initOM with bare := true } 51000 (some "curl") (some 200)
        (some { ip := "93.184.216.34", port := 80 }) false).1 "93.184.216.34:80" = false ∧
    (outputLine envC4 { initOM with bare := true } 51000 (some "curl") (some 200)
        (some { ip := "93.184.216.34", port := 80 }) false).2 = [51000] := by
  refine ⟨rfl, ?_, rfl⟩
  decide

/-! Claim C8: the width state is monotone with floor 30. -/

theorem get_port_program_mapping_width_mono (env : Env) (timeStr : String)
    (conns : List Conn) (om0 : OMState) (sort_by : String)
    (bare listening_only dns : Bool) (regex : Option String)
    (evs : List Ev) (om' : OMState) (l n : List (Nat × Entry))
    (h : get_port_program_mapping env timeStr conns om0 sort_by bare listening_only dns regex =
      (evs, Except.ok (om', l, n))) :
    om0.maxProgramLen ≤ om'.maxProgramLen := by
  simp only [get_port_program_mapping] at h
  cases hf : foldConns env listening_only (compilePattern env regex).1
      { listening := [], nonListening := [], maxLen := om0.maxProgramLen } conns with
  | error e =>
    rw [hf] at h
    have h2 := congrArg Prod.snd h
    exact Except.noConfusion h2
  | ok st =>
    rw [hf] at h
    dsimp only at h
    have hm : om0.maxProgramLen ≤ st.maxLen :=
      foldConns_maxLen_mono env listening_only (compilePattern env regex).1 conns _ st hf
    cases hs1 : sortMapping sort_by st.listening with
    | error e =>
      rw [hs1] at h
      have h2 := congrArg Prod.snd h
      exact Except.noConfusion h2
    | ok sorted_listening =>
      rw [hs1] at h
      dsimp only at h
      cases hs2 : sortMapping sort_by st.nonListening with
      | error e =>
        rw [hs2] at h
        have h2 := congrArg Prod.snd h
        exact Except.noConfusion h2
      | ok sorted_non_listening =>
        rw [hs2] at h
        dsimp only at h
        by_cases hlo : listening_only = true
        · rw [if_pos hlo] at h
          simp only [Prod.mk.injEq, Except.ok.injEq] at h
          obtain ⟨-, h2, -, -⟩ := h
          rw [← h2, print_section_maxProgramLen]
          exact hm
        · rw [if_neg hlo] at h
          simp only [Prod.mk.injEq, Except.ok.injEq] at h
          obtain ⟨-, h2, -, -⟩ := h
          rw [← h2, print_section_maxProgramLen, print_section_maxProgramLen]
          exact hm

/-- C8: `_max_program_len` never decreases: each `set_max_program_len` call,
each sequence of width reports, and each whole tick
(`get_port_program_mapping`) can only grow it, and starting from the floor 30
it never drops below 30. -/
theorem max_program_len_monotone :
    (∀ (w : Nat) (x : Option String) (w' : Nat),
       set_max_program_len w x = Except.ok w' → w ≤ w') ∧
    (∀ (rs : List (Option String)) (w w' : Nat),
       runReports w rs = Except.ok w' → w ≤ w') ∧
    (∀ (rs : List (Option String)) (w' : Nat),
       runReports 30 rs = Except.ok w' → 30 ≤ w') ∧
    (∀ (env : Env) (timeStr : String) (conns : List Conn) (om0 : OMState)
       (sort_by : String) (bare listening_only dns : Bool) (regex : Option String)
       (evs : List Ev) (om' : OMState) (l n : List (Nat × Entry)),
       get_port_program_mapping env timeStr conns om0 sort_by bare listening_only dns regex =
         (evs, Except.ok (om', l, n)) →
       om0.maxProgramLen ≤ om'.maxProgramLen) := by
  refine ⟨set_max_program_len_mono, runReports_mono, ?_, ?_⟩
  · intro rs w' h
    exact runReports_mono rs 30 w' h
  · intro env timeStr conns om0 sort_by bare listening_only dns regex evs om' l n h
    exact get_port_program_mapping_width_mono env timeStr conns om0 sort_by bare
      listening_only dns regex evs om' l n h

def strW8 : String := "0123456789012345678901234567890123456789"

/-- Witness for C8: a 40-character program name grows the width from the
floor 30 to 40, which stays at or above the floor. -/
theorem max_program_len_monotone_witness :
    runReports 30 [some strW8] = Except.ok 40 ∧ 30 ≤ 40 :=
  ⟨rfl, max_program_len_monotone.2.2.1 [some strW8] 40 rfl⟩

/-! Order facts for the three sort comparisons. -/

theorem portLe_total (x y : Nat × Entry) : portLe x y = true ∨ portLe y x = true := by
  unfold portLe
  rcases le_total (portK x) (portK y) with h | h
  · left
    exact decide_eq_true h
  · right
    exact decide_eq_true h

theorem portLe_trans (x y z : Nat × Entry) :
    portLe x y = true → portLe y z = true → portLe x z = true := by
  intro h1 h2
  exact decide_eq_true (le_trans (of_decide_eq_true h1) (of_decide_eq_true h2))

theorem pidLe_total (x y : Nat × Entry) : pidLe x y = true ∨ pidLe y x = true := by
  unfold pidLe
  rcases le_total (pidK x) (pidK y) with h | h
  · left
    exact decide_eq_true h
  · right
    exact decide_eq_true h

theorem pidLe_trans (x y z : Nat × Entry) :
    pidLe x y = true → pidLe y z = true → pidLe x z = true := by
  intro h1 h2
  exact decide_eq_true (le_trans (of_decide_eq_true h1) (of_decide_eq_true h2))

theorem progLe_total (x y : Nat × Entry) : progLe x y = true ∨ progLe y x = true :=
  strLeB_total (progK x) (progK y)

theorem progLe_trans (x y z : Nat × Entry) :
    progLe x y = true → progLe y z = true → progLe x z = true :=
  strLeB_trans (progK x) (progK y) (progK z)

theorem progLe_none_first (a b : Nat × Entry) (hab : progLe a b = true)
    (hb : b.2.program = none) : progK a = "" := by
  have hbk : progK b = "" := by
    unfold progK
    rw [hb]
  unfold progLe at hab
  rw [hbk] at hab
  exact strLeB_le_empty (progK a) hab

theorem sortMapping_default (s : String) (m : List (Nat × Entry))
    (h1 : s ≠ "PID") (h2 : s ≠ "Port") (h3 : s ≠ "Program") :
    sortMapping s m = Except.ok (insSortB portLe m) := by
  unfold sortMapping
  rw [if_neg h1, if_neg h2, if_neg h3]

theorem sortMapping_port_eq (m : List (Nat × Entry)) :
    sortMapping "Port" m = Except.ok (insSortB portLe m) := rfl

theorem sortMapping_program_eq (m : List (Nat × Entry)) :
    sortMapping "Program" m = Except.ok (insSortB progLe m) := rfl

/-- The key pass raises at the first absent pid. -/
theorem pidKeyPass_none (m : List (Nat × Entry)) (h : ∃ x ∈ m, x.2.pid = none) :
    pidKeyPass m = Except.error PyErr.typeError := by
  induction m with
  | nil =>
    obtain ⟨x, hx, -⟩ := h
    exact absurd hx (List.not_mem_nil x)
  | cons y ys ih =>
    obtain ⟨x, hx, hpid⟩ := h
    unfold pidKeyPass
    cases hy : y.2.pid with
    | none => rfl
    | some n =>
      rcases List.mem_cons.mp hx with heq | hxs
      · exfalso
        rw [heq] at hpid
        rw [hpid] at hy
        exact Option.noConfusion hy
      · exact ih ⟨x, hxs, hpid⟩

/-- A successful PID sort (so the key pass raised nothing) returns the
stable sort by pid. -/
theorem sortMapping_pid_inv (m out : List (Nat × Entry))
    (h : sortMapping "PID" m = Except.ok out) :
    out = insSortB pidLe m := by
  have hm : (match pidKeyPass m with
      | Except.error e => Except.error e
      | Except.ok _ => Except.ok (insSortB pidLe m)) = Except.ok out := h
  cases hk : pidKeyPass m with
  | error e =>
    rw [hk] at hm
    exact Except.noConfusion hm
  | ok u =>
    rw [hk] at hm
    exact (Except.ok.inj hm).symm

theorem pidLe_some_mono (u v : Nat × Entry) (hle : pidLe u v = true) :
    ∀ j k : Int, u.2.pid = some j → v.2.pid = some k → j ≤ k := by
  intro j k hj hk
  have hv := of_decide_eq_true hle
  simp only [pidK, hj, hk] at hv
  exact hv

/-! Claim C6: sort output is monotone in the chosen key. -/

def envC6 : Env :=
  { resolve := fun _ => some "python3", reprConn := fun _ => "sconn", servName := fun _ => none,
    fqdn := fun s => s, compile := fun _ => Except.error "e" }

def connC6 : Conn := Conn.mk 5000 none "ESTABLISHED" none

def mC6 : List (Nat × Entry) := [(5000, Entry.mk none (some "python3") none)]

/-- C6 counterexample: a classification result can retain an unowned
connection (pid absent, name still resolved via the current process); on it
the PID sort raises `TypeError` (`int(None)` in the key) and the whole tick
with `sort_by='PID'` raises instead of producing any non-decreasing output. -/
theorem pid_sort_raises_cex :
    foldConns envC6 false (PatternVar.bound none)
      { listening := [], nonListening := [], maxLen := 30 } [connC6] =
      Except.ok { listening := [], nonListening := mC6, maxLen := 30 } ∧
    sortMapping "PID" mC6 = Except.error PyErr.typeError ∧
    get_port_program_mapping envC6 "t" [connC6] initOM "PID" false false false none =
      ([], Except.error PyErr.typeError) := ⟨rfl, rfl, rfl⟩

/-- C6 amended: sorting by Port always yields non-decreasing local ports and
sorting by Program non-decreasing program names under the embedded Python
string order, with a `None` program name compared as the empty string so that
everything placed before an unresolved-name entry also has the empty key;
sorting by PID yields non-decreasing process IDs whenever it returns at all,
but if any retained entry has an absent pid the PID sort raises `TypeError`
and produces no output. -/
theorem sorter_monotone :
    (∀ (m out : List (Nat × Entry)), sortMapping "Port" m = Except.ok out →
       out.Pairwise (fun a b => portK a ≤ portK b)) ∧
    (∀ (m out : List (Nat × Entry)), sortMapping "PID" m = Except.ok out →
       out.Pairwise (fun u v => ∀ j k : Int, u.2.pid = some j → v.2.pid = some k → j ≤ k)) ∧
    (∀ m : List (Nat × Entry), (∃ x ∈ m, x.2.pid = none) →
       sortMapping "PID" m = Except.error PyErr.typeError) ∧
    (∀ (m out : List (Nat × Entry)), sortMapping "Program" m = Except.ok out →
       out.Pairwise (fun a b => strLeB (progK a) (progK b) = true)) ∧
    (∀ (p : Nat) (q : Option Int) (fa : Option Addr), progK (p, Entry.mk q none fa) = "") ∧
    (∀ (m out : List (Nat × Entry)), sortMapping "Program" m = Except.ok out →
       out.Pairwise (fun a b => b.2.program = none → progK a = "")) := by
  refine ⟨?_, ?_, ?_, ?_, ?_, ?_⟩
  · intro m out h
    have he : insSortB portLe m = out :=
      Except.ok.inj ((sortMapping_port_eq m).symm.trans h)
    rw [← he]
    exact (pairwise_insSortB portLe portLe_total portLe_trans m).imp
      (fun hx => of_decide_eq_true hx)
  · intro m out h
    rw [sortMapping_pid_inv m out h]
    exact (pairwise_insSortB pidLe pidLe_total pidLe_trans m).imp
      (fun hle => pidLe_some_mono _ _ hle)
  · intro m hex
    have hdef : sortMapping "PID" m = (match pidKeyPass m with
        | Except.error e => Except.error e
        | Except.ok _ => Except.ok (insSortB pidLe m)) := rfl
    rw [hdef, pidKeyPass_none m hex]
  · intro m out h
    have he : insSortB progLe m = out :=
      Except.ok.inj ((sortMapping_program_eq m).symm.trans h)
    rw [← he]
    exact pairwise_insSortB progLe progLe_total progLe_trans m
  · intro p q fa
    rfl
  · intro m out h
    have he : insSortB progLe m = out :=
      Except.ok.inj ((sortMapping_program_eq m).symm.trans h)
    rw [← he]
    exact (pairwise_insSortB progLe progLe_total progLe_trans m).imp
      (fun hab hb => progLe_none_first _ _ hab hb)

def mW6 : List (Nat × Entry) :=
  [(2, Entry.mk (some 9) (some "a") none), (1, Entry.mk (some 9) (some "b") none)]

/-- Witness for the amended C6: a successful PID sort on a concrete mapping,
with the non-decreasing-pid conclusion instantiated. -/
theorem sorter_monotone_witness :
    sortMapping "PID" mW6 =
      Except.ok [(2, Entry.mk (some 9) (some "a") none),
                 (1, Entry.mk (some 9) (some "b") none)] ∧
    ([(2, Entry.mk (some 9) (some "a") none),
      (1, Entry.mk (some 9) (some "b") none)] : List (Nat × Entry)).Pairwise
        (fun u v => ∀ j k : Int, u.2.pid = some j → v.2.pid = some k → j ≤ k) :=
  ⟨rfl, sorter_monotone.2.1 mW6 _ rfl⟩

/-! Claim C5: the default sort key. -/

def mC5 : List (Nat × Entry) :=
  [(1, Entry.mk (some 1) (some "bbb") none), (2, Entry.mk (some 2) (some "aaa") none)]

/-- C5 counterexample: with the sort key omitted the CLI default is
`"Program"`, and Program-sorting `mC5` puts port 2 before port 1 — the
buckets are not in ascending port order. -/
theorem default_sort_not_port_cex :
    mainSortKey false false none = "Program" ∧
    sortMapping (mainSortKey false false none) mC5 =
      Except.ok [(2, Entry.mk (some 2) (some "aaa") none),
                 (1, Entry.mk (some 1) (some "bbb") none)] ∧
    ¬ ([(2, Entry.mk (some 2) (some "aaa") none),
        (1, Entry.mk (some 1) (some "bbb") none)] : List (Nat × Entry)).Pairwise
        (fun a b => portK a ≤ portK b) := by
  refine ⟨rfl, rfl, ?_⟩
  decide

/-- C5 amended: a sort key that `get_port_program_mapping` does not recognize
falls back to ascending port order, but an omitted `--sort` defaults to
`"Program"` at the CLI, so such a run is program-ordered. -/
theorem sort_default_semantics :
    (∀ (s : String) (m out : List (Nat × Entry)),
       s ≠ "PID" → s ≠ "Port" → s ≠ "Program" →
       sortMapping s m = Except.ok out →
       out.Pairwise (fun a b => portK a ≤ portK b)) ∧
    mainSortKey false false none = "Program" := by
  constructor
  · intro s m out h1 h2 h3 h
    have he : insSortB portLe m = out :=
      Except.ok.inj ((sortMapping_default s m h1 h2 h3).symm.trans h)
    rw [← he]
    exact (pairwise_insSortB portLe portLe_total portLe_trans m).imp
      (fun hx => of_decide_eq_true hx)
  · rfl

/-- Witness for the amended C5 at the unrecognized key "Foo". -/
theorem sort_default_semantics_witness :
    ("Foo" : String) ≠ "PID" ∧
    sortMapping "Foo" mC5 = Except.ok (insSortB portLe mC5) ∧
    (insSortB portLe mC5).Pairwise (fun a b => portK a ≤ portK b) := by
  refine ⟨by decide, rfl, ?_⟩
  exact sort_default_semantics.1 "Foo" mC5 (insSortB portLe mC5)
    (by decide) (by decide) (by decide) rfl

/-! Claim C7: tie-breaking. -/

def eC7 : Entry := Entry.mk (some 7) (some "x") none

def mC7 : List (Nat × Entry) := [(5, eC7), (3, eC7)]

def envC7 : Env :=
  { resolve := fun _ => some "x", reprConn := fun _ => "sconn", servName := fun _ => none,
    fqdn := fun s => s, compile := fun _ => Except.error "e" }

def connsC7 : List Conn :=
  [Conn.mk 5 (some 7) "ESTABLISHED" none, Conn.mk 3 (some 7) "ESTABLISHED" none]

/-- C7 counterexample: a classification pass that observes port 5 before
port 3 (same pid 7) produces the non-listening mapping `mC7` in insertion
order, and PID-sorting keeps the tied entries in that order: port 5 precedes
port 3, so ties are not broken by ascending port. -/
theorem tie_break_not_port_cex :
    foldConns envC7 false (PatternVar.bound none)
      { listening := [], nonListening := [], maxLen := 30 } connsC7 =
      Except.ok { listening := [], nonListening := mC7, maxLen := 30 } ∧
    sortMapping "PID" mC7 = Except.ok [(5, eC7), (3, eC7)] ∧
    pidK (5, eC7) = pidK (3, eC7) ∧
    ¬ (portK (5, eC7) ≤ portK (3, eC7)) := by
  refine ⟨rfl, rfl, rfl, by decide⟩

/-- C7 amended: in PID and Program modes, entries tied on the primary key
keep the order they occupy in the mapping (insertion/observation order): the
sort is stable, so whenever it returns, filtering the sorted output down to
any one key value gives exactly the same subsequence as filtering the input
mapping.  In Port mode ties cannot occur because each bucket built by the
classification loop is keyed by port (no duplicate ports even after
sorting). -/
theorem tie_break_insertion_order :
    (∀ (m out : List (Nat × Entry)) (k : Int), sortMapping "PID" m = Except.ok out →
       out.filter (fun x => decide (pidK x = k)) =
         m.filter (fun x => decide (pidK x = k))) ∧
    (∀ (m out : List (Nat × Entry)) (k : String), sortMapping "Program" m = Except.ok out →
       out.filter (fun x => decide (progK x = k)) =
         m.filter (fun x => decide (progK x = k))) ∧
    (∀ (env : Env) (lO : Bool) (pv : PatternVar) (w : Nat) (conns : List Conn)
       (st' : LoopSt) (outL outN : List (Nat × Entry)),
       foldConns env lO pv { listening := [], nonListening := [], maxLen := w } conns =
         Except.ok st' →
       sortMapping "Port" st'.listening = Except.ok outL →
       sortMapping "Port" st'.nonListening = Except.ok outN →
       (outL.map Prod.fst).Nodup ∧ (outN.map Prod.fst).Nodup) := by
  refine ⟨?_, ?_, ?_⟩
  · intro m out k h
    rw [sortMapping_pid_inv m out h]
    exact filter_insSortB pidK (fun a b : Int => decide (a ≤ b))
      (fun b => decide_eq_true le_rfl) k m
  · intro m out k h
    have he : insSortB progLe m = out :=
      Except.ok.inj ((sortMapping_program_eq m).symm.trans h)
    rw [← he]
    exact filter_insSortB progK strLeB strLeB_refl k m
  · intro env lO pv w conns st' outL outN h hL hN
    have hn := foldConns_nodup env lO pv conns _ st' h List.Pairwise.nil List.Pairwise.nil
    have heL : insSortB portLe st'.listening = outL :=
      Except.ok.inj ((sortMapping_port_eq st'.listening).symm.trans hL)
    have heN : insSortB portLe st'.nonListening = outN :=
      Except.ok.inj ((sortMapping_port_eq st'.nonListening).symm.trans hN)
    constructor
    · rw [← heL]
      exact ((perm_insSortB portLe st'.listening).map Prod.fst).nodup_iff.mpr hn.1
    · rw [← heN]
      exact ((perm_insSortB portLe st'.nonListening).map Prod.fst).nodup_iff.mpr hn.2

/-- Witness for the amended C7 on the concrete classification pass of C1. -/
theorem tie_break_insertion_order_witness :
    foldConns envW1 false (PatternVar.bound none)
      { listening := [], nonListening := [], maxLen := 30 } connsW1 = Except.ok stW1 ∧
    sortMapping "Port" stW1.listening = Except.ok (insSortB portLe stW1.listening) ∧
    ((insSortB portLe stW1.listening).map Prod.fst).Nodup := by
  have h : foldConns envW1 false (PatternVar.bound none)
      { listening := [], nonListening := [], maxLen := 30 } connsW1 = Except.ok stW1 := rfl
  refine ⟨h, rfl, ?_⟩
  exact (tie_break_insertion_order.2.2 envW1 false (PatternVar.bound none) 30 connsW1 stW1
    (insSortB portLe stW1.listening) (insSortB portLe stW1.nonListening) h rfl rfl).1

/-! Claim C9: when the width report happens. -/

def envC9 : Env :=
  { resolve := fun _ => some strW8, reprConn := fun _ => "sconn", servName := fun _ => none,
    fqdn := fun s => s, compile := fun _ => Except.ok (fun s => decide (s = "nomatch")) }

def connC9 : Conn := Conn.mk 80 (some 100) "LISTEN" none

def pvC9 : PatternVar := PatternVar.bound (some (fun s => decide (s = "nomatch")))

/-- C9 counterexample: a connection with a 40-character program name survives
listening-only filtering but is excluded by the regex; the pass ends with the
width still at 30, so no width report was made for it — width growth is not
regex-independent. -/
theorem width_report_regex_dependent_cex :
    survivesListening false connC9 = true ∧
    envC9.resolve connC9.pid = some strW8 ∧
    strW8.length = 40 ∧
    foldConns envC9 false pvC9
      { listening := [], nonListening := [], maxLen := 30 } [connC9] =
      Except.ok { listening := [], nonListening := [], maxLen := 30 } :=
  ⟨rfl, rfl, rfl, rfl⟩

/-- C9 amended: the width report happens only after the regex filter: a
regex-excluded connection leaves the loop state (width included) untouched,
while a connection that survives both filters has its resolved name's length
folded into the width by `set_max_program_len`. -/
theorem width_report_after_regex (env : Env) (lO : Bool) (pv : PatternVar)
    (st : LoopSt) (c : Conn) (hs : survivesListening lO c = true) :
    (regexKeep env pv c = Except.ok false → stepConn env lO pv st c = Except.ok st) ∧
    (∀ s : String, regexKeep env pv c = Except.ok true → env.resolve c.pid = some s →
      stepConn env lO pv st c = Except.ok
        { listening := (process_connection env c st.listening st.nonListening).1,
          nonListening := (process_connection env c st.listening st.nonListening).2,
          maxLen := if st.maxLen < s.length then s.length else st.maxLen }) := by
  have hns : ¬ survivesListening lO c = false := by
    rw [hs]
    decide
  constructor
  · intro hrk
    unfold stepConn
    rw [if_neg hns, hrk]
  · intro s hrk hres
    unfold stepConn
    rw [if_neg hns, hrk]
    dsimp only
    rw [hres]
    rfl

/-- Witness for the amended C9 on the concrete excluded connection. -/
theorem width_report_after_regex_witness :
    survivesListening false connC9 = true ∧
    regexKeep envC9 pvC9 connC9 = Except.ok false ∧
    stepConn envC9 false pvC9
      { listening := [], nonListening := [], maxLen := 30 } connC9 =
      Except.ok { listening := [], nonListening := [], maxLen := 30 } := by
  refine ⟨rfl, rfl, ?_⟩
  exact (width_report_after_regex envC9 false pvC9
    { listening := [], nonListening := [], maxLen := 30 } connC9 rfl).1 rfl

/-! Counting column-header rows in printed output. -/

